import Mathlib

/-!
# Verification of `src/dev/hammingcode.py`

Shallow embedding of the Hamming-code module: `num_paritybits`, `parity`,
`encode` and `decode`, together with theorems settling the specification
claims.  Bits are `Nat`s, Python lists are `List Nat`, and the one runtime
error the module can raise (an `UnboundLocalError` from reading the loop
variable `r` before any assignment) is modelled with `Except`.
-/

namespace Hamming

/-- The runtime errors the Python module can raise. -/
inductive PyErr where
  /-- `UnboundLocalError`: a local variable is read before assignment. -/
  | unboundLocal
  deriving DecidableEq, Repr

/-- Embedding of `num_paritybits` (lines 1–11).  The source body is

```
while (1 << r) < k + r + 1:
    r += 1
return r
```

`r` is a local variable (it is assigned by `r += 1`) that is read by the
`while` condition before any assignment, so every call raises
`UnboundLocalError` — the function never returns a number. -/
def num_paritybits (_k : Nat) : Except PyErr Nat :=
  .error .unboundLocal

/-- The `while` loop of `num_paritybits` as its own comments intend it
(initial `r = 0`; the comment trace "1 < 5, 2 < 6, 4 < 7, 8 < 8, so it
stops at r = 3" starts from `r = 0`): increment `r` while
`(1 <<< r) < k + r + 1`.  The `fuel` argument bounds the iteration count;
`num_paritybitsFix` passes `k + 2`, which `num_paritybitsGo_spec` shows is
enough for the loop to exit on its own. -/
def num_paritybitsGo (k : Nat) : Nat → Nat → Nat
  | 0, r => r
  | fuel + 1, r => if 1 <<< r < k + r + 1 then num_paritybitsGo k fuel (r + 1) else r

/-- `num_paritybits` with the missing initialization `r = 0` supplied — the
behaviour the function's own comments (and the spec) document.  Used to
state what the module was meant to compute. -/
def num_paritybitsFix (k : Nat) : Nat :=
  num_paritybitsGo k (k + 2) 0

/-- Embedding of `parity` (lines 16–21): XOR of the codeword bits stored at
0-based indices `i` with `i &&& (1 <<< p) ≠ 0`, computed as
`sum(bit for i, bit in enumerate(codeword) if i & mask) % 2` — here the sum
over all indices `i < len(codeword)`, each contributing its bit when kept by
the mask. -/
def parity (codeword : List Nat) (p : Nat) : Nat :=
  (((List.range codeword.length).map fun i =>
      if i &&& (1 <<< p) != 0 then codeword.getD i 0 else 0).sum) % 2

/-- The data-placement loop of `encode` (lines 28–33): start from
`[0] * n`, walk `i` in `range n` and, when `(i &&& (i+1)) ≠ 0` (1-based
position not a power of two), store the next unused data bit at `i`. -/
def placeData (data : List Nat) (n : Nat) : List Nat :=
  ((List.range n).foldl
    (fun (st : List Nat × Nat) i =>
      if i &&& (i + 1) != 0 then (st.1.set i (data.getD st.2 0), st.2 + 1) else st)
    (List.replicate n 0, 0)).1

/-- The parity-filling loop of `encode` (lines 35–36): for `p` in
`range r`, set `codeword[(1 <<< p) - 1] := parity codeword p` on the
current codeword. -/
def setParities (codeword : List Nat) (r : Nat) : List Nat :=
  (List.range r).foldl (fun cw p => cw.set ((1 <<< p) - 1) (parity cw p)) codeword

/-- The body of `encode` after the call to `num_paritybits`, for a given
parity count `r`. -/
def encodeCore (data : List Nat) (r : Nat) : List Nat :=
  setParities (placeData data (data.length + r)) r

/-- Embedding of `encode` (lines 23–38): it first calls
`num_paritybits(len(data))`, so the `UnboundLocalError` raised there
propagates out of every call. -/
def encode (data : List Nat) : Except PyErr (List Nat) :=
  num_paritybits data.length >>= fun r => pure (encodeCore data r)

/-- `encode` with the missing `r = 0` initialization of `num_paritybits`
supplied (see `num_paritybitsFix`); the rest of the body is unchanged. -/
def encodeFix (data : List Nat) : List Nat :=
  encodeCore data (num_paritybitsFix data.length)

/-- The `r` computation of `decode` (lines 44–47): `r = 0`, then
`while (1 <<< r) < n + 1: r += 1`, written with a fuel bound on the
iteration count; `decodeR` passes `n + 1`, which `decodeRGo_spec` shows is
enough for the loop to exit on its own. -/
def decodeRGo (n : Nat) : Nat → Nat → Nat
  | 0, r => r
  | fuel + 1, r => if 1 <<< r < n + 1 then decodeRGo n fuel (r + 1) else r

/-- Number of parity bits `decode` attributes to a codeword of length `n`. -/
def decodeR (n : Nat) : Nat :=
  decodeRGo n (n + 1) 0

/-- The syndrome loop of `decode` (lines 49–58): for `p` in `range r`,
compare `parity codeword p` with `codeword[(1 <<< p) - 1]` and set bit `p`
of the syndrome on mismatch. -/
def syndrome (codeword : List Nat) : Nat :=
  (List.range (decodeR codeword.length)).foldl
    (fun s p =>
      if parity codeword p != codeword.getD ((1 <<< p) - 1) 0 then s ||| (1 <<< p) else s)
    0

/-- The data-extraction comprehension of `decode` (lines 66–68): the bits at
0-based indices `i` with `(i &&& (i+1)) ≠ 0`, in order. -/
def extractData (codeword : List Nat) : List Nat :=
  (codeword.enum.filter fun ib => ib.1 &&& (ib.1 + 1) != 0).map (·.2)

/-- Embedding of `decode` (lines 40–69).  The source works on
`codeword.copy()`; on values the copy is the identity, and the aliasing
behaviour is modelled separately by `decodeImp`.  `clean` starts as
`syndrome == 0` and is forced to `false` exactly when a correction is
applied (`syndrome ≠ 0` and `syndrome ≤ n`). -/
def decode (codeword : List Nat) : List Nat × Bool :=
  let n := codeword.length
  let s := syndrome codeword
  if s ≠ 0 ∧ s ≤ n then
    (extractData (codeword.set (s - 1) ((codeword.getD (s - 1) 0) ^^^ 1)), false)
  else
    (extractData codeword, s == 0)

/-- Flip bit `i` of a codeword: the tampering operation of the spec's
single-bit-flip scenarios, `codeword[i] ^= 1`. -/
def flipBit (codeword : List Nat) (i : Nat) : List Nat :=
  codeword.set i ((codeword.getD i 0) ^^^ 1)

/-- The heap of Python list objects: a map from references to list values,
with a bump allocator.  Only what `decode`'s aliasing behaviour needs. -/
structure PyState where
  lists : Nat → List Nat
  next : Nat

/-- Allocate a fresh list object holding value `v`; returns the new heap
and the fresh reference. -/
def alloc (σ : PyState) (v : List Nat) : PyState × Nat :=
  (⟨fun j => if j = σ.next then v else σ.lists j, σ.next + 1⟩, σ.next)

/-- In-place update `lists[ref][i] = b` of one list object. -/
def writeIdx (σ : PyState) (ref i b : Nat) : PyState :=
  ⟨fun j => if j = ref then (σ.lists ref).set i b else σ.lists j, σ.next⟩

/-- `decode` against the heap model: `codeword = codeword.copy()` allocates
a fresh object holding the same value, and the one mutation
`codeword[syndrome - 1] ^= 1` writes through the fresh reference only. -/
def decodeImp (σ : PyState) (ref : Nat) : PyState × (List Nat × Bool) :=
  let a := alloc σ (σ.lists ref)
  let σ1 := a.1
  let w := a.2
  let cw := σ1.lists w
  let n := cw.length
  let s := syndrome cw
  if s ≠ 0 ∧ s ≤ n then
    let σ2 := writeIdx σ1 w (s - 1) ((cw.getD (s - 1) 0) ^^^ 1)
    (σ2, (extractData (σ2.lists w), false))
  else
    (σ1, (extractData cw, s == 0))

/-! ## Arithmetic helpers -/

theorem shiftLeft_one_eq (p : Nat) : 1 <<< p = 2 ^ p := by
  simp [Nat.shiftLeft_eq]

theorem one_le_shiftLeft (p : Nat) : 1 ≤ 1 <<< p := by
  rw [shiftLeft_one_eq]
  exact Nat.one_le_two_pow

/-- The mask `1 <<< p` keeps no bit of the parity position `(1 <<< p) - 1`:
the binary digits of `2 ^ p - 1` are exactly the bits below `p`. -/
theorem land_shiftLeft_sub_one (p : Nat) : ((1 <<< p) - 1) &&& (1 <<< p) = 0 := by
  rw [shiftLeft_one_eq]
  apply Nat.eq_of_testBit_eq
  intro i
  simp only [Nat.testBit_land, Nat.zero_testBit]
  rcases eq_or_ne p i with h | h
  · subst h
    simp [Nat.testBit_two_pow_sub_one]
  · simp [Nat.testBit_two_pow_of_ne h]

/-! ## The `while` loops

Both `num_paritybits`' loop (as its comments intend it, from `r = 0`) and
`decode`'s `r` loop stop at the least `r` making their condition fail; the
fuel passed by `num_paritybitsFix` and `decodeR` is enough for the loop to
exit on its own. -/

theorem num_paritybitsGo_spec (k fuel : Nat) :
    ∀ r, (∃ t, t ≤ fuel ∧ k + (r + t) + 1 ≤ 1 <<< (r + t)) →
      k + num_paritybitsGo k fuel r + 1 ≤ 1 <<< num_paritybitsGo k fuel r ∧
        r ≤ num_paritybitsGo k fuel r ∧
          ∀ q, r ≤ q → q < num_paritybitsGo k fuel r → 1 <<< q < k + q + 1 := by
  induction fuel with
  | zero =>
    intro r ⟨t, ht, hle⟩
    obtain rfl : t = 0 := Nat.le_zero.mp ht
    exact ⟨by simpa using hle, Nat.le_refl r, fun q hq hq' => absurd hq' (by simp [num_paritybitsGo]; omega)⟩
  | succ fuel ih =>
    intro r ⟨t, ht, hle⟩
    by_cases hc : 1 <<< r < k + r + 1
    · have hres : num_paritybitsGo k (fuel + 1) r = num_paritybitsGo k fuel (r + 1) := by
        simp [num_paritybitsGo, hc]
      obtain ⟨s, rfl⟩ : ∃ s, t = s + 1 := by
        rcases t with _ | s
        · exact absurd hle (by simpa using Nat.not_le.mpr hc)
        · exact ⟨s, rfl⟩
      have hih := ih (r + 1) ⟨s, by omega, by
        have : r + 1 + s = r + (s + 1) := by omega
        rw [this]; exact hle⟩
      rw [hres]
      refine ⟨hih.1, by omega, fun q hq hq' => ?_⟩
      rcases Nat.eq_or_lt_of_le hq with h | h
      · exact h ▸ hc
      · exact hih.2.2 q h (by omega)
    · have hres : num_paritybitsGo k (fuel + 1) r = r := by
        simp [num_paritybitsGo, hc]
      rw [hres]
      exact ⟨Nat.le_of_not_lt hc, Nat.le_refl r, fun q hq hq' => by omega⟩

theorem num_paritybitsFix_spec (k : Nat) :
    k + num_paritybitsFix k + 1 ≤ 1 <<< num_paritybitsFix k ∧
      ∀ q, q < num_paritybitsFix k → 1 <<< q < k + q + 1 := by
  have hex : ∃ t, t ≤ k + 2 ∧ k + (0 + t) + 1 ≤ 1 <<< (0 + t) := by
    refine ⟨k + 1, by omega, ?_⟩
    rw [Nat.zero_add, shiftLeft_one_eq, pow_succ]
    have := Nat.lt_two_pow k
    omega
  have h := num_paritybitsGo_spec k (k + 2) 0 hex
  exact ⟨h.1, fun q hq => h.2.2 q (Nat.zero_le q) hq⟩

theorem decodeRGo_spec (n fuel : Nat) :
    ∀ r, (∃ t, t ≤ fuel ∧ n + 1 ≤ 1 <<< (r + t)) →
      n + 1 ≤ 1 <<< decodeRGo n fuel r ∧
        r ≤ decodeRGo n fuel r ∧
          ∀ q, r ≤ q → q < decodeRGo n fuel r → 1 <<< q < n + 1 := by
  induction fuel with
  | zero =>
    intro r ⟨t, ht, hle⟩
    obtain rfl : t = 0 := Nat.le_zero.mp ht
    exact ⟨by simpa using hle, Nat.le_refl r, fun q hq hq' => absurd hq' (by simp [decodeRGo]; omega)⟩
  | succ fuel ih =>
    intro r ⟨t, ht, hle⟩
    by_cases hc : 1 <<< r < n + 1
    · have hres : decodeRGo n (fuel + 1) r = decodeRGo n fuel (r + 1) := by
        simp [decodeRGo, hc]
      obtain ⟨s, rfl⟩ : ∃ s, t = s + 1 := by
        rcases t with _ | s
        · exact absurd hle (by simpa using Nat.not_le.mpr hc)
        · exact ⟨s, rfl⟩
      have hih := ih (r + 1) ⟨s, by omega, by
        have : r + 1 + s = r + (s + 1) := by omega
        rw [this]; exact hle⟩
      rw [hres]
      refine ⟨hih.1, by omega, fun q hq hq' => ?_⟩
      rcases Nat.eq_or_lt_of_le hq with h | h
      · exact h ▸ hc
      · exact hih.2.2 q h (by omega)
    · have hres : decodeRGo n (fuel + 1) r = r := by
        simp [decodeRGo, hc]
      rw [hres]
      exact ⟨Nat.le_of_not_lt hc, Nat.le_refl r, fun q hq hq' => by omega⟩

theorem decodeR_spec (n : Nat) :
    n + 1 ≤ 1 <<< decodeR n ∧ ∀ q, q < decodeR n → 1 <<< q < n + 1 := by
  have hex : ∃ t, t ≤ n + 1 ∧ n + 1 ≤ 1 <<< (0 + t) := by
    refine ⟨n, by omega, ?_⟩
    rw [Nat.zero_add, shiftLeft_one_eq]
    exact Nat.lt_two_pow n
  have h := decodeRGo_spec n (n + 1) 0 hex
  exact ⟨h.1, fun q hq => h.2.2 q (Nat.zero_le q) hq⟩

/-! ## Claim theorems -/

/-- Claim C1 (code bug).  The claim says `decode (encode data) = (data, true)`
for every bit sequence.  In the code, `encode` raises `UnboundLocalError` on
every call because `num_paritybits` reads `r` before assignment; and even with
the missing `r = 0` initialization supplied, `decode (encode [1])` returns
`([1], false)` — the flag is `false` on an untampered codeword, because the
parity masks are applied to 0-based indices. -/
theorem round_trip_code_bug :
    encode [1] = Except.error PyErr.unboundLocal ∧
      decode (encodeFix [1]) = ([1], false) :=
  ⟨rfl, by decide⟩

/-- Claim C2 (code bug).  The claim (and the spec's own concrete scenario)
says that flipping bit 4 of the codeword of `[1,0,1,1]` and decoding returns
`([1,0,1,1], false)`.  In the code, `encode` raises `UnboundLocalError`; and
with the `r = 0` initialization supplied the codeword is `[1,0,1,0,0,1,1]`,
flipping index 4 makes the syndrome equal the 0-based error index 4, the
code flips index `4 - 1 = 3` instead, and decoding returns `([1,1,1,1], false)`:
the data is not recovered. -/
theorem single_flip_code_bug :
    encode [1, 0, 1, 1] = Except.error PyErr.unboundLocal ∧
      decode (flipBit (encodeFix [1, 0, 1, 1]) 4) = ([1, 1, 1, 1], false) ∧
        decode (flipBit (encodeFix [1, 0, 1, 1]) 4) ≠ ([1, 0, 1, 1], false) :=
  ⟨rfl, by decide, by decide⟩

/-- Claim C3, counterexample.  The claim says `num_paritybits 0` returns `1`
with no error condition; in the code it raises `UnboundLocalError` and
returns nothing. -/
theorem num_paritybits_zero_raises :
    num_paritybits 0 = Except.error PyErr.unboundLocal ∧
      num_paritybits 0 ≠ Except.ok 1 :=
  ⟨rfl, fun h => nomatch h⟩

/-- Claim C3 as amended: `num_paritybits` raises `UnboundLocalError` for
every `k` (the loop variable `r` is read before initialization); with the
initialization `r = 0` that its own comment trace assumes, it returns the
minimal `r ≥ 0` with `2 ^ r ≥ k + r + 1`, and that minimal value at `k = 0`
is `0`, not `1`. -/
theorem num_paritybits_amended (k q : Nat) (hq : q < num_paritybitsFix k) :
    num_paritybits k = Except.error PyErr.unboundLocal ∧
      k + num_paritybitsFix k + 1 ≤ 1 <<< num_paritybitsFix k ∧
        1 <<< q < k + q + 1 ∧ num_paritybitsFix 0 = 0 := by
  have h := num_paritybitsFix_spec k
  exact ⟨rfl, h.1, h.2 q hq, rfl⟩

/-- Witness for `num_paritybits_amended` at `k = 4`, `q = 2` (the minimal
parity count for 4 data bits is 3, and `2 ^ 2 < 4 + 2 + 1`). -/
theorem num_paritybits_amended_witness :
    2 < num_paritybitsFix 4 ∧
      (num_paritybits 4 = Except.error PyErr.unboundLocal ∧
        4 + num_paritybitsFix 4 + 1 ≤ 1 <<< num_paritybitsFix 4 ∧
          1 <<< 2 < 4 + 2 + 1 ∧ num_paritybitsFix 0 = 0) :=
  ⟨by decide, num_paritybits_amended 4 2 (by decide)⟩

/-- Claim C4 (code bug).  The claim says every codeword returned by `encode`
satisfies `parity codeword p = codeword[2 ^ p - 1]` for every `p`.  In the
code, `encode` raises `UnboundLocalError`; and with the `r = 0`
initialization supplied, the codeword of `[1]` is `[0, 1, 1]`, whose check
for `p = 0` already fails: writing a later parity bit at index `2 ^ q - 1`
(whose binary form has every bit below `q` set) changes the earlier checks. -/
theorem encode_parity_code_bug :
    encode [1] = Except.error PyErr.unboundLocal ∧
      parity (encodeFix [1]) 0 = 1 ∧ (encodeFix [1]).getD ((1 <<< 0) - 1) 0 = 0 :=
  ⟨rfl, by decide, by decide⟩

/-- Claim C5 (code bug).  The claim says the covering set of
`parity codeword p` includes the parity bit's own storage index
`2 ^ p - 1`, so flipping that bit changes the parity value.  In the code the
mask is applied to 0-based indices, and `(2 ^ p - 1) &&& 2 ^ p = 0`: the
stored parity bit is never in its own covering set, and flipping it never
changes `parity codeword p`. -/
theorem parity_own_position_unchanged (c : List Nat) (p : Nat) :
    parity (flipBit c ((1 <<< p) - 1)) p = parity c p := by
  unfold flipBit parity
  rw [List.length_set]
  congr 1
  apply congrArg List.sum
  apply List.map_congr_left
  intro i _
  rcases eq_or_ne ((1 <<< p) - 1) i with h | h
  · subst h
    simp [land_shiftLeft_sub_one]
  · simp only [List.getD_eq_getElem?_getD, List.getElem?_set_ne h]

/-- Claim C6 (confirmed).  When the syndrome is nonzero and exceeds the
codeword length, `decode` applies no correction, returns flag `false`, and
extracts the data from the uncorrected codeword. -/
theorem decode_syndrome_overflow (c : List Nat) (h0 : syndrome c ≠ 0)
    (hn : c.length < syndrome c) : decode c = (extractData c, false) := by
  have hcond : ¬(syndrome c ≠ 0 ∧ syndrome c ≤ c.length) := fun h => by omega
  simp only [decode]
  rw [if_neg hcond]
  simp [beq_eq_false_iff_ne.mpr h0]

/-- Witness for `decode_syndrome_overflow`: `[0, 1]` has syndrome `3 > 2`. -/
theorem decode_syndrome_overflow_witness :
    syndrome [0, 1] ≠ 0 ∧ ([0, 1] : List Nat).length < syndrome [0, 1] ∧
      decode [0, 1] = (extractData [0, 1], false) :=
  ⟨by decide, by decide, decode_syndrome_overflow [0, 1] (by decide) (by decide)⟩

/-- Claim C7 (confirmed).  Every index `decode` reads or writes is in range:
for each `p` below the parity count it attributes to the codeword, the read
index `2 ^ p - 1` is below the length, and when a nonzero syndrome is at
most the length, the corrected index `syndrome - 1` is below the length —
so the embedding is total and no exception is possible. -/
theorem decode_index_safety (c : List Nat) (p : Nat) (hp : p < decodeR c.length) :
    (1 <<< p) - 1 < c.length ∧
      (syndrome c ≠ 0 → syndrome c ≤ c.length → syndrome c - 1 < c.length) := by
  have h := (decodeR_spec c.length).2 p hp
  have h1 := one_le_shiftLeft p
  exact ⟨by omega, fun h0 hle => by omega⟩

/-- Witness for `decode_index_safety` at `c = [0, 1]`, `p = 1`. -/
theorem decode_index_safety_witness :
    1 < decodeR ([0, 1] : List Nat).length ∧
      ((1 <<< 1) - 1 < ([0, 1] : List Nat).length ∧
        (syndrome [0, 1] ≠ 0 → syndrome [0, 1] ≤ ([0, 1] : List Nat).length →
          syndrome [0, 1] - 1 < ([0, 1] : List Nat).length)) :=
  ⟨by decide, decode_index_safety [0, 1] 1 (by decide)⟩

/-- Claim C8 (confirmed).  Against the heap model, `decode` never mutates
the caller's list object: the copy is allocated fresh and the one in-place
write goes through the fresh reference, so after the call the caller's
reference still holds exactly the bits it held before, and the returned
value agrees with the pure `decode`. -/
theorem decode_preserves_input (σ : PyState) (ref : Nat) (h : ref < σ.next) :
    (decodeImp σ ref).1.lists ref = σ.lists ref ∧
      (decodeImp σ ref).2 = decode (σ.lists ref) := by
  have hne : ref ≠ σ.next := Nat.ne_of_lt h
  by_cases hs : syndrome (σ.lists ref) ≠ 0 ∧ syndrome (σ.lists ref) ≤ (σ.lists ref).length
  · simp [decodeImp, alloc, writeIdx, decode, hne, hs]
  · simp [decodeImp, alloc, writeIdx, decode, hne, hs]

/-- A one-object heap used to instantiate `decode_preserves_input`. -/
def sampleState : PyState :=
  ⟨fun _ => [0, 1], 1⟩

/-- Witness for `decode_preserves_input` on a concrete heap. -/
theorem decode_preserves_input_witness :
    0 < sampleState.next ∧
      ((decodeImp sampleState 0).1.lists 0 = sampleState.lists 0 ∧
        (decodeImp sampleState 0).2 = decode (sampleState.lists 0)) :=
  ⟨by decide, decode_preserves_input sampleState 0 (by decide)⟩

/-- Claim C9, counterexample.  The claim says `encode [] = [0]`; in the code
`encode` raises `UnboundLocalError` and returns nothing. -/
theorem encode_empty_counterexample :
    encode [] = Except.error PyErr.unboundLocal ∧ encode [] ≠ Except.ok [0] :=
  ⟨rfl, fun h => nomatch h⟩

/-- Claim C9 as amended: `encode []` raises `UnboundLocalError` as written;
with the missing `r = 0` initialization supplied, `num_paritybits 0 = 0`, so
`encode []` returns the empty codeword `[]` rather than `[0]`.  Decoding the
one-bit codewords behaves as claimed: `decode [0] = ([], true)` and
`decode [1] = ([], false)`. -/
theorem empty_data_amended :
    encodeFix [] = [] ∧ num_paritybitsFix 0 = 0 ∧
      decode [0] = ([], true) ∧ decode [1] = ([], false) :=
  ⟨by decide, by decide, by decide, by decide⟩

/-- Claim C10 (confirmed).  `decode []` computes `r = 0`, runs no parity
check, gets syndrome `0`, applies no correction, and returns `([], true)`. -/
theorem decode_empty_list :
    decode ([] : List Nat) = ([], true) ∧ decodeR 0 = 0 ∧
      syndrome ([] : List Nat) = 0 :=
  ⟨by decide, by decide, by decide⟩

end Hamming
